import Mathlib

/-!
Verification of the streaming-response consumer and progress aggregation of the
MultiAgentResearcher frontend.

The development shallowly embeds:
* the incremental UTF-8 text decoder used by the stream consumer (the WHATWG
  `TextDecoder` byte-by-byte state machine, as invoked with the stream flag);
* a JSON value grammar and a parser modelling `JSON.parse` (numbers are kept as
  a decimal mantissa/exponent pair; strings are lists of characters);
* `askQuestionStream` and `askQuestion` from the frontend api module: the
  line-framed `data: `-prefixed record decoding loop, the non-2xx error path and
  the missing-body error path;
* `createInitialProgress`, `AGENT_NAMES`, `AgentStatus` from types.ts and
  `allSubQuestionsCompleted` from AgentProgressWidget.tsx;
* the progress aggregator state machine (modelled from the spec, see below).
-/

namespace MAR

/-- The JSON value universe produced by `JSON.parse`.  A number literal is kept
as `num m e`, denoting `m * 10 ^ e`; object members are kept in source order. -/
inductive Json where
  | null
  | bool (b : Bool)
  | num (mantissa : Int) (exp10 : Int)
  | str (chars : List Char)
  | arr (elems : List Json)
  | obj (members : List (List Char × Json))

/-- Opening curly brace character (written via its code point). -/
def lbrace : Char := Char.ofNat 123

/-- Closing curly brace character (written via its code point). -/
def rbrace : Char := Char.ofNat 125

/-- JSON insignificant whitespace: space, tab, line feed, carriage return. -/
def isWsChar (c : Char) : Bool := c = ' ' || c = '\t' || c = '\n' || c = '\r'

/-- Drop leading JSON whitespace. -/
def skipWs (s : List Char) : List Char := s.dropWhile isWsChar

/-- Decimal digit test on the code point. -/
def isDigitChar (c : Char) : Bool := 48 ≤ c.toNat && c.toNat ≤ 57

/-- Numeric value of a decimal digit character. -/
def digitVal (c : Char) : Nat := c.toNat - 48

/-- Value of a decimal digit string, most significant digit first. -/
def digitsToNat (ds : List Char) : Nat := ds.foldl (fun acc c => acc * 10 + digitVal c) 0

/-- Hexadecimal digit test. -/
def isHexChar (c : Char) : Bool :=
  (48 ≤ c.toNat && c.toNat ≤ 57) || (65 ≤ c.toNat && c.toNat ≤ 70) ||
    (97 ≤ c.toNat && c.toNat ≤ 102)

/-- Numeric value of a hexadecimal digit character. -/
def hexVal (c : Char) : Nat :=
  if 48 ≤ c.toNat && c.toNat ≤ 57 then c.toNat - 48
  else if 65 ≤ c.toNat && c.toNat ≤ 70 then c.toNat - 55
  else c.toNat - 87

/-- Translate a JSON string escape character to the character it denotes
(`\u` escapes are handled separately). -/
def escChar (e : Char) : Option Char :=
  if e = '"' then some '"'
  else if e = '\\' then some '\\'
  else if e = '/' then some '/'
  else if e = 'b' then some (Char.ofNat 8)
  else if e = 'f' then some (Char.ofNat 12)
  else if e = 'n' then some '\n'
  else if e = 'r' then some '\r'
  else if e = 't' then some '\t'
  else none

/-- Parse the body of a JSON string literal (the opening quote already
consumed), returning the denoted characters and the input after the closing
quote.  Raw control characters below 0x20 are rejected, as `JSON.parse` does. -/
def parseStr : Nat → List Char → Option (List Char × List Char)
  | 0, _ => none
  | _, [] => none
  | fuel + 1, c :: rest =>
    if c = '"' then some ([], rest)
    else if c = '\\' then
      match rest with
      | [] => none
      | e :: rest2 =>
        if e = 'u' then
          match rest2 with
          | h1 :: h2 :: h3 :: h4 :: rest3 =>
            if isHexChar h1 && isHexChar h2 && isHexChar h3 && isHexChar h4 then
              match parseStr fuel rest3 with
              | some (cs, r) =>
                some (Char.ofNat (((hexVal h1 * 16 + hexVal h2) * 16 + hexVal h3) * 16
                  + hexVal h4) :: cs, r)
              | none => none
            else none
          | _ => none
        else
          match escChar e with
          | some ch =>
            match parseStr fuel rest2 with
            | some (cs, r) => some (ch :: cs, r)
            | none => none
          | none => none
    else if c.toNat < 32 then none
    else
      match parseStr fuel rest with
      | some (cs, r) => some (c :: cs, r)
      | none => none

/-- Parse the optional fraction part of a JSON number literal: either no dot, or
a dot followed by at least one digit. -/
def parseFrac : List Char → Option (List Char × List Char)
  | [] => some ([], [])
  | c :: r =>
    if c = '.' then
      match r.span isDigitChar with
      | ([], _) => none
      | (ds, r2) => some (ds, r2)
    else some ([], c :: r)

/-- Parse the optional exponent part of a JSON number literal, returning the
signed exponent value. -/
def parseExp : List Char → Option (Int × List Char)
  | [] => some (0, [])
  | c :: r =>
    if c = 'e' || c = 'E' then
      let signed : Bool × List Char :=
        match r with
        | '+' :: t => (false, t)
        | '-' :: t => (true, t)
        | t => (false, t)
      match signed.2.span isDigitChar with
      | ([], _) => none
      | (ds, r2) =>
        some (if signed.1 then -(digitsToNat ds : Int) else (digitsToNat ds : Int), r2)
    else some (0, c :: r)

/-- Parse a JSON number literal: optional minus, an integer part with no
superfluous leading zero, an optional fraction and an optional exponent. -/
def parseNum (s : List Char) : Option (Json × List Char) :=
  let signed : Bool × List Char :=
    match s with
    | '-' :: r => (true, r)
    | r => (false, r)
  match signed.2.span isDigitChar with
  | ([], _) => none
  | (d :: ds, s2) =>
    if d = '0' && ds ≠ [] then none
    else
      match parseFrac s2 with
      | none => none
      | some (fds, s3) =>
        match parseExp s3 with
        | none => none
        | some (e, s4) =>
          let mant : Nat := digitsToNat ((d :: ds) ++ fds)
          some (Json.num (if signed.1 then -(mant : Int) else (mant : Int))
            (e - (fds.length : Int)), s4)

/-- Match a fixed keyword (the tail of `null` / `true` / `false`). -/
def matchLit (lit : List Char) (s : List Char) (v : Json) : Option (Json × List Char) :=
  if lit.isPrefixOf s then some (v, s.drop lit.length) else none

mutual

/-- Parse one JSON value after skipping leading whitespace, returning the value
and the unconsumed input.  `fuel` bounds the recursion depth; the top-level
entry point supplies more fuel than any input can consume. -/
def parseVal : Nat → List Char → Option (Json × List Char)
  | 0, _ => none
  | fuel + 1, s =>
    match skipWs s with
    | [] => none
    | c :: rest =>
      if c = 'n' then matchLit ['u', 'l', 'l'] rest Json.null
      else if c = 't' then matchLit ['r', 'u', 'e'] rest (Json.bool true)
      else if c = 'f' then matchLit ['a', 'l', 's', 'e'] rest (Json.bool false)
      else if c = '"' then
        match parseStr (rest.length + 1) rest with
        | some (cs, r) => some (Json.str cs, r)
        | none => none
      else if c = '[' then
        match skipWs rest with
        | ']' :: r => some (Json.arr [], r)
        | _ => parseItems fuel rest []
      else if c = lbrace then
        match skipWs rest with
        | d :: r => if d = rbrace then some (Json.obj [], r) else parseMembers fuel rest []
        | [] => none
      else if c = '-' || isDigitChar c then parseNum (c :: rest)
      else none

/-- Parse the comma-separated elements of a non-empty JSON array, up to and
including the closing bracket. -/
def parseItems : Nat → List Char → List Json → Option (Json × List Char)
  | 0, _, _ => none
  | fuel + 1, s, acc =>
    match parseVal fuel s with
    | none => none
    | some (v, r) =>
      match skipWs r with
      | ',' :: r2 => parseItems fuel r2 (acc ++ [v])
      | ']' :: r2 => some (Json.arr (acc ++ [v]), r2)
      | _ => none

/-- Parse the comma-separated members of a non-empty JSON object, up to and
including the closing brace. -/
def parseMembers : Nat → List Char → List (List Char × Json) → Option (Json × List Char)
  | 0, _, _ => none
  | fuel + 1, s, acc =>
    match skipWs s with
    | c :: r =>
      if c = '"' then
        match parseStr (r.length + 1) r with
        | none => none
        | some (k, r2) =>
          match skipWs r2 with
          | ':' :: r3 =>
            match parseVal fuel r3 with
            | none => none
            | some (v, r4) =>
              match skipWs r4 with
              | ',' :: r5 => parseMembers fuel r5 (acc ++ [(k, v)])
              | d :: r5 =>
                if d = rbrace then some (Json.obj (acc ++ [(k, v)]), r5) else none
              | [] => none
          | _ => none
      else none
    | [] => none

end

/-- The model of `JSON.parse`: parse one value and insist that only whitespace
remains; any other outcome is a parse failure (an exception in the source). -/
def jsonParse (s : List Char) : Option Json :=
  match parseVal (2 * s.length + 2) s with
  | some (v, rest) => if skipWs rest = [] then some v else none
  | none => none

/-- The replacement character U+FFFD emitted by `TextDecoder` for encoding
errors. -/
def replChar : Char := Char.ofNat 0xFFFD

/-- State of the incremental UTF-8 decoder (the WHATWG `TextDecoder` state
machine): the code point assembled so far, the number of continuation bytes
still needed, and the admissible range of the next continuation byte. -/
structure Utf8State where
  cp : Nat
  needed : Nat
  lower : Nat
  upper : Nat
deriving DecidableEq

/-- Initial state of the incremental UTF-8 decoder. -/
def utf8Init : Utf8State := ⟨0, 0, 0x80, 0xBF⟩

/-- Handle one byte from the initial decoder state: dispatch on the lead byte,
emitting an ASCII character, starting a multi-byte sequence, or emitting a
replacement character for an invalid lead byte. -/
def utf8StepInit (b : Nat) : Utf8State × List Char :=
  if b ≤ 0x7F then (utf8Init, [Char.ofNat b])
  else if 0xC2 ≤ b ∧ b ≤ 0xDF then (⟨b % 32, 1, 0x80, 0xBF⟩, [])
  else if 0xE0 ≤ b ∧ b ≤ 0xEF then
    (⟨b % 16, 2, if b = 0xE0 then 0xA0 else 0x80, if b = 0xED then 0x9F else 0xBF⟩, [])
  else if 0xF0 ≤ b ∧ b ≤ 0xF4 then
    (⟨b % 8, 3, if b = 0xF0 then 0x90 else 0x80, if b = 0xF4 then 0x8F else 0xBF⟩, [])
  else (utf8Init, [replChar])

/-- Handle one byte in an arbitrary decoder state.  A continuation byte outside
the admissible range emits a replacement character and reprocesses the byte
from the initial state, exactly as the WHATWG algorithm restores the byte to
the input queue. -/
def utf8Step (s : Utf8State) (b : Nat) : Utf8State × List Char :=
  if s.needed = 0 then utf8StepInit b
  else if s.lower ≤ b ∧ b ≤ s.upper then
    let cp := s.cp * 64 + b % 64
    if s.needed = 1 then (utf8Init, [Char.ofNat cp])
    else (⟨cp, s.needed - 1, 0x80, 0xBF⟩, [])
  else
    let p := utf8StepInit b
    (p.1, replChar :: p.2)

/-- Run the incremental decoder over a chunk of bytes, returning the final
state and the characters produced, in order. -/
def utf8Run (s : Utf8State) : List Nat → Utf8State × List Char
  | [] => (s, [])
  | b :: rest =>
    let p := utf8Step s b
    let q := utf8Run p.1 rest
    (q.1, p.2 ++ q.2)

/-- The text produced by decoding a byte stream with the streaming decoder
(no final flush, matching a source loop that never calls the final decode). -/
def decodeStream (bs : List Nat) : List Char := (utf8Run utf8Init bs).2

/-- Decode a whole byte sequence as `res.json()` would: stream the bytes and
flush, emitting a final replacement character if a sequence is incomplete. -/
def decodeAll (bs : List Nat) : List Char :=
  let p := utf8Run utf8Init bs
  if p.1.needed = 0 then p.2 else p.2 ++ [replChar]

/-- Prepend a string to the first element of a line list (used to splice the
carried buffer into the next split). -/
def consHead (p : List Char) : List (List Char) → List (List Char)
  | [] => [p]
  | h :: t => (p ++ h) :: t

/-- The model of JavaScript `s.split("\n")`: the segments of `s` between
newline characters, including a trailing empty segment when `s` ends in a
newline, and `[""]` on empty input. -/
def splitLines : List Char → List (List Char)
  | [] => [[]]
  | c :: rest => if c = '\n' then [] :: splitLines rest else consHead [c] (splitLines rest)

/-- The last element of a line list, as `lines.pop()` reads it in the source
(total, with `[]` as default; a split result is never empty). -/
def lastLine : List (List Char) → List Char
  | [] => []
  | [x] => x
  | _ :: y :: t => lastLine (y :: t)

/-- The fixed record marker of the wire framing: the characters of
`"data: "`. -/
def dataMarker : List Char := ['d', 'a', 't', 'a', ':', ' ']

/-- Process one complete line exactly as the source loop body does: a line
carrying the `data: ` marker is stripped of its first six characters and given
to `JSON.parse`; a parse failure, like an unmarked line, produces no event. -/
def parseLine (l : List Char) : Option Json :=
  if dataMarker.isPrefixOf l then jsonParse (l.drop 6) else none

/-- State of the decoding loop of `askQuestionStream`: the text decoder state,
the carried partial-line buffer, and the events yielded so far. -/
structure DecState where
  u : Utf8State
  buf : List Char
  evs : List Json

/-- One iteration of the `askQuestionStream` loop on a read chunk: decode the
bytes incrementally, append to the working buffer, split on newlines, keep the
final segment as the new buffer, and yield an event for every complete
`data: `-marked line that parses. -/
def processChunk (st : DecState) (chunk : List Nat) : DecState :=
  let p := utf8Run st.u chunk
  let sl := splitLines (st.buf ++ p.2)
  ⟨p.1, lastLine sl, st.evs ++ sl.dropLast.filterMap parseLine⟩

/-- The loop of `askQuestionStream` run over the whole sequence of read
chunks. -/
def streamLoop (chunks : List (List Nat)) : DecState :=
  chunks.foldl processChunk ⟨utf8Init, [], []⟩

/-- All events yielded by `askQuestionStream` for a chunked body: the events of
the loop, followed by the event parsed from the residual buffer if it still
forms a complete `data: `-marked record when the channel closes. -/
def streamEvents (chunks : List (List Nat)) : List Json :=
  (streamLoop chunks).evs ++ (parseLine (streamLoop chunks).buf).toList

/-- Events of a contiguous text, used to relate chunked and unchunked runs of
the decoding loop. -/
def eventsOfText (t : List Char) : List Json :=
  (splitLines t).dropLast.filterMap parseLine ++ (parseLine (lastLine (splitLines t))).toList

/-- The HTTP response handed to `askQuestion` / `askQuestionStream`: the 2xx
flag and the body, absent when no readable body exists, otherwise the byte
chunks delivered by successive reads. -/
structure HttpResponse where
  ok : Bool
  body : Option (List (List Nat))

/-- The result of `res.json()`: the whole body decoded as text and parsed as
JSON; a missing body or a parse failure is a rejection, modelled as `none`. -/
def bodyJson (r : HttpResponse) : Option Json :=
  match r.body with
  | none => none
  | some chunks => jsonParse (decodeAll chunks.flatten)

/-- Look up a member of a JSON object; JavaScript property access on an object
built by `JSON.parse` observes the last member with the given key, and is
absent on non-objects. -/
def objLookup (j : Json) (key : List Char) : Option Json :=
  match j with
  | Json.obj members => ((members.filter (fun kv => kv.1 = key)).map (fun kv => kv.2)).getLast?
  | _ => none

/-- The error produced by the non-2xx path shared by `askQuestion` and
`askQuestionStream`: the `detail` member of the parsed body when present and
non-null (`payload?.detail ?? "Request failed"`), else `"Request failed"`. -/
def failDetail (r : HttpResponse) : Json :=
  match bodyJson r with
  | none => Json.str ("Request failed".toList)
  | some p =>
    match objLookup p ("detail".toList) with
    | none => Json.str ("Request failed".toList)
    | some Json.null => Json.str ("Request failed".toList)
    | some d => d

/-- The model of `askQuestionStream`: a non-2xx response throws the detail
error before any event; an OK response without a readable body throws
`"No response body"`; otherwise the decoding loop yields the event sequence. -/
def askQuestionStream (r : HttpResponse) : Except Json (List Json) :=
  if r.ok then
    match r.body with
    | none => Except.error (Json.str ("No response body".toList))
    | some chunks => Except.ok (streamEvents chunks)
  else Except.error (failDetail r)

/-- The model of the non-streaming `askQuestion`: the same non-2xx error path,
then the parsed body; a body that fails to parse is a rejected `res.json()`,
modelled as a null-payload error. -/
def askQuestion (r : HttpResponse) : Except Json Json :=
  if r.ok then
    match bodyJson r with
    | some v => Except.ok v
    | none => Except.error Json.null
  else Except.error (failDetail r)

/-- The `AgentStatus` union of types.ts:
`"pending" | "running" | "completed" | "failed"`. -/
inductive AgentStatus where
  | pending
  | running
  | completed
  | failed
deriving DecidableEq

/-- The `AgentName` union of types.ts:
`"retriever" | "extractor" | "critic" | "synthesizer" | "referee"`. -/
inductive AgentName where
  | retriever
  | extractor
  | critic
  | synthesizer
  | referee
deriving DecidableEq

/-- The `AgentProgress` record of types.ts: one `AgentStatus` per fixed
stage. -/
structure AgentProgress where
  retriever : AgentStatus
  extractor : AgentStatus
  critic : AgentStatus
  synthesizer : AgentStatus
  referee : AgentStatus
deriving DecidableEq

/-- The `AGENT_NAMES` constant of types.ts, in source order. -/
def AGENT_NAMES : List AgentName :=
  [AgentName.retriever, AgentName.extractor, AgentName.critic,
    AgentName.synthesizer, AgentName.referee]

/-- The function `createInitialProgress` from types.ts: every fixed stage starts
`"pending"`. -/
def createInitialProgress : AgentProgress :=
  ⟨AgentStatus.pending, AgentStatus.pending, AgentStatus.pending,
    AgentStatus.pending, AgentStatus.pending⟩

/-- Read the status of a named stage from an `AgentProgress` record
(`progress[agent]` in the source). -/
def getStage (p : AgentProgress) : AgentName → AgentStatus
  | AgentName.retriever => p.retriever
  | AgentName.extractor => p.extractor
  | AgentName.critic => p.critic
  | AgentName.synthesizer => p.synthesizer
  | AgentName.referee => p.referee

/-- Replace the status of a named stage in an `AgentProgress` record. -/
def setStage (p : AgentProgress) (n : AgentName) (s : AgentStatus) : AgentProgress :=
  match n with
  | AgentName.retriever => { p with retriever := s }
  | AgentName.extractor => { p with extractor := s }
  | AgentName.critic => { p with critic := s }
  | AgentName.synthesizer => { p with synthesizer := s }
  | AgentName.referee => { p with referee := s }

/-- The `SubQuestionProgress` record consumed by AgentProgressWidget.tsx: the
sub-question label, its status, and the paper count reported on completion. -/
structure SubQuestionProgress where
  sub_question : String
  status : AgentStatus
  papers_found : Option Nat
deriving DecidableEq

/-- The helper `allSubQuestionsCompleted` from AgentProgressWidget.tsx: false when the
sub-question list is absent or empty, otherwise true exactly when every
sub-question has status `"completed"`. -/
def allSubQuestionsCompleted (subQuestions : Option (List SubQuestionProgress)) : Bool :=
  match subQuestions with
  | none => false
  | some l =>
    if l.length = 0 then false
    else l.all (fun sq => sq.status == AgentStatus.completed)

/-- The literal alternatives of the `type` field of the `ProgressEvent` record
declared in types.ts. -/
def progressEventTypes : List String := ["progress", "result", "error"]

/-- Whether a JSON value is an object. -/
def isJsonObj : Json → Bool
  | Json.obj _ => true
  | _ => false

/-- Rank of a status in the progress order `pending < running < completed` and
`pending < running < failed`; the two terminal statuses share the top rank. -/
def statusRank : AgentStatus → Nat
  | AgentStatus.pending => 0
  | AgentStatus.running => 1
  | AgentStatus.completed => 2
  | AgentStatus.failed => 2

/-- Mode flag of the pipeline state: standard, or expanded into sub-tasks. -/
inductive Mode where
  | standard
  | expanded
deriving DecidableEq

/-- Terminal outcome of one streamed request: the `result` payload or the
`error` message. -/
inductive TerminalState where
  | result (payload : Json)
  | errorMsg (message : List Char)

/-- The aggregate pipeline state owned by the progress aggregator for one
request: a status per fixed stage, the optional sub-question list (absent until
a `plan_expanded` event arrives), the mode flag, and the absorbing terminal
outcome. -/
structure PipelineState where
  progress : AgentProgress
  subQuestions : Option (List SubQuestionProgress)
  mode : Mode
  terminal : Option TerminalState

/-- The initial pipeline state for a fresh request: all fixed stages pending,
no sub-questions, standard mode, not terminal. -/
def initialPipelineState : PipelineState :=
  ⟨createInitialProgress, none, Mode.standard, none⟩

/-- The event vocabulary of the wire protocol, per the data model: `progress`,
`plan_expanded`, `subtask_progress`, `result` and `error`. -/
inductive SpecEvent where
  | progress (stage : AgentName) (status : AgentStatus)
  | planExpanded (subQuestions : List String)
  | subtaskProgress (index : Nat) (status : AgentStatus) (papersFound : Option Nat)
  | result (payload : Json)
  | errorMsg (message : List Char)

/-- Modelled from the spec: the `apply(event)` transition of the Progress
Aggregator (spec section 4.2).  The frontend component that folds stream events
into the pipeline state is not among the provided sources — only its consumers,
such as AgentProgressWidget, are — so the transition is taken from the spec's
words: a terminal state absorbs every event; `progress` raises a stage's status
and never lowers it (monotonic, idempotent); the first `plan_expanded`
materializes the pending sub-question list and later ones are ignored;
`subtask_progress` with a valid index raises that sub-question's status, taking
the paper count only on completion, and out-of-range indices or updates before
expansion are dropped; `result` and `error` make the state terminal. -/
def applyEvent (s : PipelineState) (e : SpecEvent) : PipelineState :=
  match s.terminal with
  | some _ => s
  | none =>
    match e with
    | SpecEvent.progress stage status =>
      if statusRank (getStage s.progress stage) < statusRank status then
        { s with progress := setStage s.progress stage status }
      else s
    | SpecEvent.planExpanded qs =>
      match s.subQuestions with
      | some _ => s
      | none =>
        { s with mode := Mode.expanded,
                 subQuestions := some (qs.map (fun q => ⟨q, AgentStatus.pending, none⟩)) }
    | SpecEvent.subtaskProgress i status cnt =>
      match s.subQuestions with
      | none => s
      | some l =>
        match l.get? i with
        | none => s
        | some cur =>
          if statusRank cur.status < statusRank status then
            { s with subQuestions := some (l.set i
                ⟨cur.sub_question, status,
                  if status = AgentStatus.completed then cnt else cur.papers_found⟩) }
          else s
    | SpecEvent.result payload => { s with terminal := some (TerminalState.result payload) }
    | SpecEvent.errorMsg m => { s with terminal := some (TerminalState.errorMsg m) }

/-- Byte list of an ASCII string, used to build concrete test inputs. -/
def asciiBytes (s : String) : List Nat := s.toList.map Char.toNat

/-- A sample pipeline state used by concrete instantiations: the retriever
stage and the single sub-question are already completed. -/
def samplePipelineState : PipelineState :=
  ⟨⟨AgentStatus.completed, AgentStatus.pending, AgentStatus.pending,
      AgentStatus.pending, AgentStatus.pending⟩,
    some [⟨"q1", AgentStatus.completed, some 2⟩], Mode.expanded, none⟩

/-! ### Lemmas about line splitting -/

theorem consHead_ne_nil (p : List Char) (ls : List (List Char)) : consHead p ls ≠ [] := by
  cases ls <;> simp [consHead]

theorem splitLines_ne_nil (t : List Char) : splitLines t ≠ [] := by
  induction t with
  | nil => simp [splitLines]
  | cons c rest ih =>
    by_cases hc : c = '\n' <;> simp [splitLines, hc, consHead_ne_nil]

theorem consHead_consHead (p q : List Char) (ls : List (List Char)) :
    consHead p (consHead q ls) = consHead (p ++ q) ls := by
  cases ls <;> simp [consHead]

theorem consHead_nil_eq (ls : List (List Char)) (h : ls ≠ []) : consHead [] ls = ls := by
  cases ls with
  | nil => exact absurd rfl h
  | cons x t => simp [consHead]

theorem lastLine_cons_ne (x : List Char) (ls : List (List Char)) (h : ls ≠ []) :
    lastLine (x :: ls) = lastLine ls := by
  cases ls with
  | nil => exact absurd rfl h
  | cons y t => rfl

theorem lastLine_append_ne (p ls : List (List Char)) (h : ls ≠ []) :
    lastLine (p ++ ls) = lastLine ls := by
  induction p with
  | nil => rfl
  | cons x p ih =>
    rw [List.cons_append, lastLine_cons_ne _ _ (by simp [h]), ih]

theorem dropLast_cons_ne (x : List Char) (ls : List (List Char)) (h : ls ≠ []) :
    (x :: ls).dropLast = x :: ls.dropLast := by
  cases ls with
  | nil => exact absurd rfl h
  | cons y t => rfl

theorem dropLast_append_ne (p ls : List (List Char)) (h : ls ≠ []) :
    (p ++ ls).dropLast = p ++ ls.dropLast := by
  induction p with
  | nil => rfl
  | cons x p ih =>
    rw [List.cons_append, dropLast_cons_ne _ _ (by simp [h]), ih, List.cons_append]

theorem splitLines_cons_nl (rest : List Char) :
    splitLines ('\n' :: rest) = [] :: splitLines rest := by
  simp [splitLines]

theorem splitLines_cons_other (c : Char) (rest : List Char) (hc : c ≠ '\n') :
    splitLines (c :: rest) = consHead [c] (splitLines rest) := by
  simp [splitLines, hc]

theorem splitLines_append (a b : List Char) :
    splitLines (a ++ b) =
      (splitLines a).dropLast ++ consHead (lastLine (splitLines a)) (splitLines b) := by
  induction a with
  | nil =>
    show splitLines b = (splitLines []).dropLast ++ consHead (lastLine (splitLines [])) _
    show splitLines b = [] ++ consHead [] (splitLines b)
    rw [List.nil_append, consHead_nil_eq _ (splitLines_ne_nil b)]
  | cons c a ih =>
    by_cases hc : c = '\n'
    · subst hc
      rw [List.cons_append, splitLines_cons_nl, splitLines_cons_nl, ih,
        dropLast_cons_ne _ _ (splitLines_ne_nil a),
        lastLine_cons_ne _ _ (splitLines_ne_nil a), List.cons_append]
    · rw [List.cons_append, splitLines_cons_other _ _ hc, splitLines_cons_other _ _ hc, ih]
      cases hsa : splitLines a with
      | nil => exact absurd hsa (splitLines_ne_nil a)
      | cons h t =>
        cases t with
        | nil =>
          show consHead [c] ([] ++ consHead h (splitLines b)) =
            (consHead [c] [h]).dropLast ++ consHead (lastLine (consHead [c] [h])) (splitLines b)
          show consHead [c] (consHead h (splitLines b)) =
            [] ++ consHead (lastLine [[c] ++ h]) (splitLines b)
          rw [consHead_consHead, List.nil_append]
          rfl
        | cons y t =>
          show consHead [c] ((h :: y :: t).dropLast ++ consHead (lastLine (h :: y :: t)) _) =
            (([c] ++ h) :: y :: t).dropLast ++
              consHead (lastLine (([c] ++ h) :: y :: t)) (splitLines b)
          rw [dropLast_cons_ne h (y :: t) (by simp),
            dropLast_cons_ne ([c] ++ h) (y :: t) (by simp),
            lastLine_cons_ne h (y :: t) (by simp),
            lastLine_cons_ne ([c] ++ h) (y :: t) (by simp),
            List.cons_append, List.cons_append]
          rfl

theorem splitLines_of_no_nl (t : List Char) (h : '\n' ∉ t) : splitLines t = [t] := by
  induction t with
  | nil => rfl
  | cons c rest ih =>
    have hc : c ≠ '\n' := fun hc => h (hc ▸ List.mem_cons_self c rest)
    have hr : '\n' ∉ rest := fun hr => h (List.mem_cons_of_mem c hr)
    rw [splitLines_cons_other _ _ hc, ih hr]
    rfl

theorem lastLine_splitLines_no_nl (t : List Char) : '\n' ∉ lastLine (splitLines t) := by
  induction t with
  | nil => simp [splitLines, lastLine]
  | cons c rest ih =>
    by_cases hc : c = '\n'
    · subst hc
      rw [splitLines_cons_nl, lastLine_cons_ne _ _ (splitLines_ne_nil rest)]
      exact ih
    · rw [splitLines_cons_other _ _ hc]
      cases hsr : splitLines rest with
      | nil => exact absurd hsr (splitLines_ne_nil rest)
      | cons h t =>
        cases t with
        | nil =>
          simp only [consHead, lastLine]
          rw [hsr] at ih
          simp only [lastLine] at ih
          intro hm
          rcases List.mem_append.mp hm with hm | hm
          · exact hc (List.mem_singleton.mp hm).symm
          · exact ih hm
        | cons y t =>
          simp only [consHead]
          rw [lastLine_cons_ne _ _ (by simp)]
          rw [hsr] at ih
          rw [lastLine_cons_ne _ _ (by simp)] at ih
          exact ih

theorem splitLines_lastLine_append (a b : List Char) :
    splitLines (lastLine (splitLines a) ++ b) =
      consHead (lastLine (splitLines a)) (splitLines b) := by
  rw [splitLines_append]
  rw [splitLines_of_no_nl _ (lastLine_splitLines_no_nl a)]
  simp [lastLine]

/-! ### Lemmas about the incremental UTF-8 decoder and the decoding loop -/

theorem utf8Run_append (s : Utf8State) (b1 b2 : List Nat) :
    utf8Run s (b1 ++ b2) =
      ((utf8Run (utf8Run s b1).1 b2).1,
        (utf8Run s b1).2 ++ (utf8Run (utf8Run s b1).1 b2).2) := by
  induction b1 generalizing s with
  | nil => simp [utf8Run]
  | cons b rest ih =>
    have h1 : utf8Run s ((b :: rest) ++ b2) =
        ((utf8Run (utf8Step s b).1 (rest ++ b2)).1,
          (utf8Step s b).2 ++ (utf8Run (utf8Step s b).1 (rest ++ b2)).2) := rfl
    have h2 : utf8Run s (b :: rest) =
        ((utf8Run (utf8Step s b).1 rest).1,
          (utf8Step s b).2 ++ (utf8Run (utf8Step s b).1 rest).2) := rfl
    rw [h1, h2, ih]
    simp [List.append_assoc]

theorem processChunk_append (st : DecState) (c1 c2 : List Nat) :
    processChunk (processChunk st c1) c2 = processChunk st (c1 ++ c2) := by
  simp only [processChunk, utf8Run_append]
  rw [splitLines_lastLine_append (st.buf ++ (utf8Run st.u c1).2)
    (utf8Run (utf8Run st.u c1).1 c2).2]
  rw [(List.append_assoc st.buf (utf8Run st.u c1).2 (utf8Run (utf8Run st.u c1).1 c2).2).symm]
  rw [splitLines_append (st.buf ++ (utf8Run st.u c1).2) (utf8Run (utf8Run st.u c1).1 c2).2]
  have hne : consHead (lastLine (splitLines (st.buf ++ (utf8Run st.u c1).2)))
      (splitLines (utf8Run (utf8Run st.u c1).1 c2).2) ≠ [] := consHead_ne_nil _ _
  rw [lastLine_append_ne _ _ hne, dropLast_append_ne _ _ hne, List.filterMap_append,
    List.append_assoc]

theorem processChunk_buf_no_nl (st : DecState) (c : List Nat) :
    '\n' ∉ (processChunk st c).buf := by
  simp only [processChunk]
  exact lastLine_splitLines_no_nl _

theorem processChunk_nil (st : DecState) (h : '\n' ∉ st.buf) : processChunk st [] = st := by
  obtain ⟨u, buf, evs⟩ := st
  simp only [processChunk, utf8Run, List.append_nil]
  rw [splitLines_of_no_nl buf h]
  simp [lastLine]

theorem streamLoop_flatten (cs : List (List Nat)) (st : DecState) (h : '\n' ∉ st.buf) :
    cs.foldl processChunk st = processChunk st cs.flatten := by
  induction cs generalizing st with
  | nil => simpa [List.foldl] using (processChunk_nil st h).symm
  | cons c cs ih =>
    rw [List.foldl_cons, ih (processChunk st c) (processChunk_buf_no_nl st c),
      processChunk_append, List.flatten_cons]

theorem streamEvents_eq_eventsOfText (cs : List (List Nat)) :
    streamEvents cs = eventsOfText (decodeStream cs.flatten) := by
  unfold streamEvents streamLoop
  rw [streamLoop_flatten cs ⟨utf8Init, [], []⟩ (by simp)]
  simp only [processChunk, decodeStream, eventsOfText, List.nil_append]

theorem splitLines_insert_line (a m b : List Char) (hL : lastLine (splitLines a) = [])
    (hnl : '\n' ∉ m) :
    splitLines (a ++ (m ++ '\n' :: b)) = (splitLines a).dropLast ++ m :: splitLines b := by
  have hsm : splitLines (m ++ '\n' :: b) = m :: splitLines b := by
    rw [splitLines_append, splitLines_of_no_nl m hnl, splitLines_cons_nl]
    show [] ++ consHead m ([] :: splitLines b) = m :: splitLines b
    simp [consHead]
  rw [splitLines_append, hsm, hL, consHead_nil_eq _ (by simp)]

theorem eventsOfText_insert_line (a m b : List Char) (hL : lastLine (splitLines a) = [])
    (hnl : '\n' ∉ m) (hm : parseLine m = none) :
    eventsOfText (a ++ (m ++ '\n' :: b)) = eventsOfText (a ++ b) := by
  have key := splitLines_insert_line a m b hL hnl
  have key2 : splitLines (a ++ b) = (splitLines a).dropLast ++ splitLines b := by
    rw [splitLines_append, hL, consHead_nil_eq _ (splitLines_ne_nil b)]
  have hsb := splitLines_ne_nil b
  unfold eventsOfText
  rw [key, key2,
    dropLast_append_ne _ (m :: splitLines b) (by simp), dropLast_cons_ne m _ hsb,
    dropLast_append_ne _ (splitLines b) hsb,
    lastLine_append_ne _ (m :: splitLines b) (by simp), lastLine_cons_ne m _ hsb,
    lastLine_append_ne _ (splitLines b) hsb,
    List.filterMap_append, List.filterMap_append, List.filterMap_cons_none hm]

theorem lastLine_splitLines_eq_nil (a : List Char)
    (h : a = [] ∨ a.getLast? = some '\n') : lastLine (splitLines a) = [] := by
  rcases h with rfl | h
  · rfl
  · have hne : a ≠ [] := by
      intro hnil
      rw [hnil] at h
      exact Option.noConfusion h
    have hlast : a.getLast hne = '\n' := by
      have hq := List.getLast?_eq_getLast_of_ne_nil hne
      rw [hq] at h
      exact Option.some.inj h
    have hdecomp : a = a.dropLast ++ ['\n'] := by
      conv_lhs => rw [(List.dropLast_append_getLast hne).symm]
      rw [hlast]
    rw [hdecomp, splitLines_append]
    have hsn : splitLines ['\n'] = [[], []] := rfl
    rw [hsn, lastLine_append_ne _ _ (consHead_ne_nil _ _)]
    show lastLine ((_ ++ []) :: [[]]) = []
    rw [lastLine_cons_ne _ _ (by simp)]
    rfl

theorem lastLine_mem : ∀ (ls : List (List Char)), ls ≠ [] → lastLine ls ∈ ls
  | [x], _ => by simp [lastLine]
  | x :: y :: t, _ => by
    rw [lastLine_cons_ne _ _ (by simp)]
    exact List.mem_cons_of_mem _ (lastLine_mem (y :: t) (by simp))

theorem mem_of_mem_dropLast_lines (ls : List (List Char)) (l : List Char)
    (h : l ∈ ls.dropLast) : l ∈ ls := by
  induction ls with
  | nil => simp at h
  | cons x t ih =>
    cases t with
    | nil => simp at h
    | cons y t2 =>
      rw [dropLast_cons_ne x (y :: t2) (by simp)] at h
      rcases List.mem_cons.mp h with rfl | h2
      · exact List.mem_cons_self _ _
      · exact List.mem_cons_of_mem _ (ih h2)

theorem eventsOfText_mem (t : List Char) (e : Json) (he : e ∈ eventsOfText t) :
    ∃ l, l ∈ splitLines t ∧ dataMarker.isPrefixOf l = true ∧ jsonParse (l.drop 6) = some e := by
  unfold eventsOfText at he
  rcases List.mem_append.mp he with he | he
  · rcases List.mem_filterMap.mp he with ⟨l, hl, hpl⟩
    refine ⟨l, mem_of_mem_dropLast_lines _ _ hl, ?_, ?_⟩
    · by_cases hpre : dataMarker.isPrefixOf l
      · exact hpre
      · rw [parseLine, if_neg hpre] at hpl
        exact Option.noConfusion hpl
    · by_cases hpre : dataMarker.isPrefixOf l
      · rw [parseLine, if_pos hpre] at hpl
        exact hpl
      · rw [parseLine, if_neg hpre] at hpl
        exact Option.noConfusion hpl
  · have hpl : parseLine (lastLine (splitLines t)) = some e := by
      cases hp : parseLine (lastLine (splitLines t)) with
      | none => rw [hp] at he; simp [Option.toList] at he
      | some x =>
        rw [hp] at he
        simp only [Option.toList, List.mem_singleton] at he
        subst he
        rfl
    refine ⟨lastLine (splitLines t), lastLine_mem _ (splitLines_ne_nil t), ?_, ?_⟩
    · by_cases hpre : dataMarker.isPrefixOf (lastLine (splitLines t))
      · exact hpre
      · rw [parseLine, if_neg hpre] at hpl
        exact Option.noConfusion hpl
    · by_cases hpre : dataMarker.isPrefixOf (lastLine (splitLines t))
      · rw [parseLine, if_pos hpre] at hpl
        exact hpl
      · rw [parseLine, if_neg hpre] at hpl
        exact Option.noConfusion hpl

/-! ### Lemmas about the progress aggregator -/

theorem getStage_setStage_same (p : AgentProgress) (n : AgentName) (v : AgentStatus) :
    getStage (setStage p n v) n = v := by
  cases n <;> rfl

theorem getStage_setStage_ne (p : AgentProgress) (n m : AgentName) (v : AgentStatus)
    (h : n ≠ m) : getStage (setStage p n v) m = getStage p m := by
  cases n <;> cases m <;> first
    | rfl
    | exact absurd rfl h

theorem applyEvent_stage_mono (s : PipelineState) (e : SpecEvent) (stage : AgentName) :
    statusRank (getStage s.progress stage) ≤
      statusRank (getStage (applyEvent s e).progress stage) := by
  obtain ⟨prog, subq, mode, term⟩ := s
  cases term with
  | some t => exact le_refl _
  | none =>
    cases e with
    | progress st2 status =>
      simp only [applyEvent]
      by_cases hlt : statusRank (getStage prog st2) < statusRank status
      · rw [if_pos hlt]
        by_cases heq : st2 = stage
        · subst heq
          show statusRank (getStage prog st2) ≤ statusRank (getStage (setStage prog st2 status) st2)
          rw [getStage_setStage_same]
          exact le_of_lt hlt
        · show statusRank (getStage prog stage) ≤
            statusRank (getStage (setStage prog st2 status) stage)
          rw [getStage_setStage_ne _ _ _ _ heq]
      · rw [if_neg hlt]
    | planExpanded qs =>
      cases subq <;> exact le_refl _
    | subtaskProgress i status cnt =>
      cases subq with
      | none => exact le_refl _
      | some l =>
        cases hget : l.get? i with
        | none => simp only [applyEvent, hget]; exact le_refl _
        | some cur =>
          by_cases hlt : statusRank cur.status < statusRank status
          · simp only [applyEvent, hget, if_pos hlt]; exact le_refl _
          · simp only [applyEvent, hget, if_neg hlt]; exact le_refl _
    | result payload => exact le_refl _
    | errorMsg m => exact le_refl _

theorem applyEvent_subq_mono (s : PipelineState) (e : SpecEvent)
    (st : List SubQuestionProgress) (hs : s.subQuestions = some st) :
    ∃ st2, (applyEvent s e).subQuestions = some st2 ∧ st2.length = st.length ∧
      ∀ i a, st.get? i = some a →
        ∃ b, st2.get? i = some b ∧ statusRank a.status ≤ statusRank b.status := by
  obtain ⟨prog, subq, mode, term⟩ := s
  simp only at hs
  subst hs
  have triv : ∃ st2, (some st : Option (List SubQuestionProgress)) = some st2 ∧
      st2.length = st.length ∧ ∀ i a, st.get? i = some a →
        ∃ b, st2.get? i = some b ∧ statusRank a.status ≤ statusRank b.status :=
    ⟨st, rfl, rfl, fun i a ha => ⟨a, ha, le_refl _⟩⟩
  cases term with
  | some t => exact triv
  | none =>
    cases e with
    | progress st2 status =>
      simp only [applyEvent]
      by_cases hlt : statusRank (getStage prog st2) < statusRank status
      · rw [if_pos hlt]; exact triv
      · rw [if_neg hlt]; exact triv
    | planExpanded qs => exact triv
    | subtaskProgress i status cnt =>
      cases hget : st.get? i with
      | none => simp only [applyEvent, hget]; exact triv
      | some cur =>
        by_cases hlt : statusRank cur.status < statusRank status
        · simp only [applyEvent, hget, if_pos hlt]
          refine ⟨st.set i ⟨cur.sub_question, status,
            if status = AgentStatus.completed then cnt else cur.papers_found⟩,
            rfl, List.length_set .., ?_⟩
          intro j a ha
          by_cases hij : i = j
          · subst hij
            have hlen : i < st.length := (List.get?_eq_some.mp hget).1
            refine ⟨_, List.get?_set_eq_of_lt _ hlen, ?_⟩
            have : a = cur := by
              rw [hget] at ha
              exact (Option.some.inj ha).symm
            rw [this]
            exact le_of_lt hlt
          · exact ⟨a, by rw [List.get?_set_ne _ _ hij]; exact ha, le_refl _⟩
        · simp only [applyEvent, hget, if_neg hlt]; exact triv
    | result payload => exact triv
    | errorMsg m => exact triv

theorem foldl_applyEvent_stage_mono (evs : List SpecEvent) (s : PipelineState)
    (stage : AgentName) :
    statusRank (getStage s.progress stage) ≤
      statusRank (getStage (evs.foldl applyEvent s).progress stage) := by
  induction evs generalizing s with
  | nil => exact le_refl _
  | cons e evs ih =>
    exact le_trans (applyEvent_stage_mono s e stage) (ih (applyEvent s e))

theorem foldl_applyEvent_subq_mono (evs : List SpecEvent) (s : PipelineState)
    (st : List SubQuestionProgress) (hs : s.subQuestions = some st) :
    ∃ st2, (evs.foldl applyEvent s).subQuestions = some st2 ∧ st2.length = st.length ∧
      ∀ i a, st.get? i = some a →
        ∃ b, st2.get? i = some b ∧ statusRank a.status ≤ statusRank b.status := by
  induction evs generalizing s st with
  | nil => exact ⟨st, hs, rfl, fun i a ha => ⟨a, ha, le_refl _⟩⟩
  | cons e evs ih =>
    obtain ⟨st1, h1, hlen1, hpt1⟩ := applyEvent_subq_mono s e st hs
    obtain ⟨st2, h2, hlen2, hpt2⟩ := ih (applyEvent s e) st1 h1
    refine ⟨st2, h2, hlen2.trans hlen1, fun i a ha => ?_⟩
    obtain ⟨b, hb, hab⟩ := hpt1 i a ha
    obtain ⟨c, hc, hbc⟩ := hpt2 i b hb
    exact ⟨c, hc, le_trans hab hbc⟩

theorem applyEvent_completed_stage_noop (s : PipelineState) (stage : AgentName)
    (h : getStage s.progress stage = AgentStatus.completed) :
    applyEvent s (SpecEvent.progress stage AgentStatus.completed) = s := by
  obtain ⟨prog, subq, mode, term⟩ := s
  cases term with
  | some t => rfl
  | none =>
    simp only at h
    simp only [applyEvent]
    rw [if_neg]
    rw [h]
    simp [statusRank]

theorem applyEvent_completed_subtask_noop (s : PipelineState) (i : Nat) (cnt : Option Nat)
    (st : List SubQuestionProgress) (a : SubQuestionProgress)
    (hs : s.subQuestions = some st) (ha : st.get? i = some a)
    (hc : a.status = AgentStatus.completed) :
    applyEvent s (SpecEvent.subtaskProgress i AgentStatus.completed cnt) = s := by
  obtain ⟨prog, subq, mode, term⟩ := s
  simp only at hs
  subst hs
  cases term with
  | some t => rfl
  | none =>
    have hno : ¬ statusRank a.status < statusRank AgentStatus.completed := by
      rw [hc]
      simp [statusRank]
    simp only [applyEvent, ha, if_neg hno]

/-! ### Helper lemmas for the non-2xx error path -/

theorem failDetail_of_detail (r : HttpResponse) (p d : Json) (hb : bodyJson r = some p)
    (hd : objLookup p ("detail".toList) = some d) (hne : d ≠ Json.null) :
    failDetail r = d := by
  cases d with
  | null => exact absurd rfl hne
  | bool b => simp only [failDetail, hb, hd]
  | num m e => simp only [failDetail, hb, hd]
  | str cs => simp only [failDetail, hb, hd]
  | arr elems => simp only [failDetail, hb, hd]
  | obj members => simp only [failDetail, hb, hd]

theorem failDetail_of_no_body (r : HttpResponse) (hb : bodyJson r = none) :
    failDetail r = Json.str ("Request failed".toList) := by
  simp only [failDetail, hb]

theorem failDetail_of_no_detail (r : HttpResponse) (p : Json) (hb : bodyJson r = some p)
    (hd : objLookup p ("detail".toList) = none) :
    failDetail r = Json.str ("Request failed".toList) := by
  simp only [failDetail, hb, hd]

theorem failDetail_of_null_detail (r : HttpResponse) (p : Json) (hb : bodyJson r = some p)
    (hd : objLookup p ("detail".toList) = some Json.null) :
    failDetail r = Json.str ("Request failed".toList) := by
  simp only [failDetail, hb, hd]

theorem askQuestionStream_not_ok (r : HttpResponse) (hok : r.ok = false) :
    askQuestionStream r = Except.error (failDetail r) := by
  unfold askQuestionStream
  rw [hok]
  rfl

theorem askQuestion_not_ok (r : HttpResponse) (hok : r.ok = false) :
    askQuestion r = Except.error (failDetail r) := by
  unfold askQuestion
  rw [hok]
  rfl

/-! ### The claims -/

/-- C1.  Frame-boundary independence: feeding a byte stream to
`askQuestionStream` in arbitrary chunks — including splits inside multi-byte
character encodings — yields exactly the same ordered event sequence as feeding
the whole stream as one contiguous chunk. -/
theorem stream_frame_boundary_independence (chunks : List (List Nat)) :
    askQuestionStream ⟨true, some chunks⟩ = askQuestionStream ⟨true, some [chunks.flatten]⟩ := by
  simp only [askQuestionStream]
  have h1 := streamEvents_eq_eventsOfText chunks
  have h2 := streamEvents_eq_eventsOfText [chunks.flatten]
  have hfl : ([chunks.flatten] : List (List Nat)).flatten = chunks.flatten := by simp
  rw [hfl] at h2
  rw [h1, h2]
  rfl

/-- C2.  Tolerance: injecting one malformed record line (a `data: `-marked line
whose payload fails to parse) at a line boundary of an otherwise valid stream
yields the same event sequence as the unmodified stream — no exception, no
truncation, no change to any other record's event. -/
theorem stream_malformed_record_tolerance (cs cs2 : List (List Nat)) (a m b : List Char)
    (hdec : decodeStream cs.flatten = a ++ (m ++ '\n' :: b))
    (hdec2 : decodeStream cs2.flatten = a ++ b)
    (hbound : a = [] ∨ a.getLast? = some '\n')
    (hnl : '\n' ∉ m)
    (hrec : dataMarker.isPrefixOf m = true)
    (hmal : jsonParse (m.drop 6) = none) :
    askQuestionStream ⟨true, some cs⟩ = askQuestionStream ⟨true, some cs2⟩ := by
  simp only [askQuestionStream]
  rw [streamEvents_eq_eventsOfText cs, streamEvents_eq_eventsOfText cs2, hdec, hdec2,
    eventsOfText_insert_line a m b (lastLine_splitLines_eq_nil a hbound) hnl
      (by rw [parseLine, if_pos hrec]; exact hmal)]
  rfl

/-- C2 witness: dropping the malformed record `data: nope` from a concrete
stream leaves the event sequence unchanged. -/
theorem stream_malformed_record_tolerance_witness :
    askQuestionStream ⟨true, some [asciiBytes "data: nope\ndata: 1\n"]⟩ =
      askQuestionStream ⟨true, some [asciiBytes "data: 1\n"]⟩ :=
  stream_malformed_record_tolerance _ _ [] ("data: nope".toList) ("data: 1\n".toList)
    rfl rfl (Or.inl rfl) (by decide) rfl rfl

/-- C4.  On channel close, a residual buffer that still forms a complete frame
(the `data: ` marker followed by a payload that parses) is emitted as exactly
one final event; a residual that does not form a complete frame is discarded
and produces no event. -/
theorem stream_residual_buffer_on_close (chunks : List (List Nat)) :
    (∀ v, dataMarker.isPrefixOf (streamLoop chunks).buf = true →
       jsonParse ((streamLoop chunks).buf.drop 6) = some v →
       streamEvents chunks = (streamLoop chunks).evs ++ [v])
  ∧ (dataMarker.isPrefixOf (streamLoop chunks).buf = false →
       streamEvents chunks = (streamLoop chunks).evs)
  ∧ (jsonParse ((streamLoop chunks).buf.drop 6) = none →
       streamEvents chunks = (streamLoop chunks).evs) := by
  refine ⟨?_, ?_, ?_⟩
  · intro v hpre hjson
    unfold streamEvents
    rw [parseLine, if_pos hpre, hjson]
    rfl
  · intro hpre
    unfold streamEvents
    rw [parseLine, if_neg (by simp [hpre])]
    simp [Option.toList]
  · intro hjson
    unfold streamEvents
    by_cases hpre : dataMarker.isPrefixOf (streamLoop chunks).buf
    · rw [parseLine, if_pos hpre, hjson]
      simp [Option.toList]
    · rw [parseLine, if_neg hpre]
      simp [Option.toList]

/-- C4 witness: a complete residual frame `data: 9` is emitted as one final
event; residuals `xyz` (no marker) and `data: \x7b` (incomplete payload) are
discarded. -/
theorem stream_residual_buffer_on_close_witness :
    streamEvents [asciiBytes "data: 7\ndata: 9"] =
        (streamLoop [asciiBytes "data: 7\ndata: 9"]).evs ++ [Json.num 9 0]
  ∧ streamEvents [asciiBytes "data: 1\nxyz"] = (streamLoop [asciiBytes "data: 1\nxyz"]).evs
  ∧ streamEvents [asciiBytes "data: 1\ndata: \x7b"] =
      (streamLoop [asciiBytes "data: 1\ndata: \x7b"]).evs :=
  ⟨(stream_residual_buffer_on_close _).1 (Json.num 9 0) rfl rfl,
    (stream_residual_buffer_on_close _).2.1 rfl,
    (stream_residual_buffer_on_close _).2.2 rfl⟩

/-- C7.  A line that does not begin with the marker `data: ` followed by a
space produces no event: inserting any such line at a line boundary leaves the
event sequence unchanged, so only marker-prefixed lines can produce events. -/
theorem stream_unmarked_line_ignored (cs cs2 : List (List Nat)) (a m b : List Char)
    (hdec : decodeStream cs.flatten = a ++ (m ++ '\n' :: b))
    (hdec2 : decodeStream cs2.flatten = a ++ b)
    (hbound : a = [] ∨ a.getLast? = some '\n')
    (hnl : '\n' ∉ m)
    (hrec : dataMarker.isPrefixOf m = false) :
    askQuestionStream ⟨true, some cs⟩ = askQuestionStream ⟨true, some cs2⟩ := by
  simp only [askQuestionStream]
  rw [streamEvents_eq_eventsOfText cs, streamEvents_eq_eventsOfText cs2, hdec, hdec2,
    eventsOfText_insert_line a m b (lastLine_splitLines_eq_nil a hbound) hnl
      (by rw [parseLine, if_neg (by simp [hrec])])]
  rfl

/-- C7 witness: an unmarked comment line `: keep-alive` inserted into a
concrete stream produces no event. -/
theorem stream_unmarked_line_ignored_witness :
    askQuestionStream ⟨true, some [asciiBytes "data: 1\n: keep-alive\ndata: 2\n"]⟩ =
      askQuestionStream ⟨true, some [asciiBytes "data: 1\ndata: 2\n"]⟩ :=
  stream_unmarked_line_ignored _ _ ("data: 1\n".toList) (": keep-alive".toList)
    ("data: 2\n".toList) rfl rfl (Or.inr rfl) (by decide) rfl

/-- C5 counterexample: the stream `data: 42` yields the event `42`, which is
not an object and carries no `type` field; moreover the `ProgressEvent` type of
types.ts recognizes neither `plan_expanded` nor `subtask_progress` — its `type`
union has exactly three members, not five. -/
theorem decoded_event_shape_counterexample :
    streamEvents [asciiBytes "data: 42\n"] = [Json.num 42 0]
  ∧ isJsonObj (Json.num 42 0) = false
  ∧ ("plan_expanded" ∈ progressEventTypes → False)
  ∧ ("subtask_progress" ∈ progressEventTypes → False) :=
  ⟨rfl, rfl, by decide, by decide⟩

/-- C5 amended: every event yielded by `askQuestionStream` is the raw
`JSON.parse` result of the text after the `data: ` marker of some line of the
stream — the decoder performs no runtime validation, so events need not be
objects carrying a `type` field — and the `ProgressEvent` declaration of
types.ts recognizes exactly the three type values `progress`, `result`,
`error`. -/
theorem decoded_event_shape_amended :
    (∀ (chunks : List (List Nat)) (e : Json), e ∈ streamEvents chunks →
       ∃ l, l ∈ splitLines (decodeStream chunks.flatten) ∧
         dataMarker.isPrefixOf l = true ∧ jsonParse (l.drop 6) = some e)
  ∧ progressEventTypes = ["progress", "result", "error"] :=
  ⟨fun chunks e he =>
    eventsOfText_mem _ e (by rwa [streamEvents_eq_eventsOfText] at he), rfl⟩

/-- C5 amended witness: the event `true` of a concrete stream is traced back to
its `data: `-marked source line. -/
theorem decoded_event_shape_amended_witness :
    ∃ l, l ∈ splitLines (decodeStream ([asciiBytes "data: true\n"] : List (List Nat)).flatten) ∧
      dataMarker.isPrefixOf l = true ∧ jsonParse (l.drop 6) = some (Json.bool true) :=
  decoded_event_shape_amended.1 [asciiBytes "data: true\n"] (Json.bool true) (by
    have h : streamEvents [asciiBytes "data: true\n"] = [Json.bool true] := rfl
    rw [h]
    exact List.mem_singleton.mpr rfl)

/-- C6.  Every non-2xx response makes both `askQuestionStream` and
`askQuestion` surface a single error and no events: the error is the `detail`
member of the parsed JSON body when it parses and carries a non-null one, and
`"Request failed"` otherwise (body absent or unparsable, member absent, or
member null). -/
theorem non_ok_response_single_error (r : HttpResponse) (hok : r.ok = false) :
    (∀ p d, bodyJson r = some p → objLookup p ("detail".toList) = some d → d ≠ Json.null →
       askQuestionStream r = Except.error d ∧ askQuestion r = Except.error d)
  ∧ (bodyJson r = none →
       askQuestionStream r = Except.error (Json.str ("Request failed".toList)) ∧
       askQuestion r = Except.error (Json.str ("Request failed".toList)))
  ∧ (∀ p, bodyJson r = some p → objLookup p ("detail".toList) = none →
       askQuestionStream r = Except.error (Json.str ("Request failed".toList)) ∧
       askQuestion r = Except.error (Json.str ("Request failed".toList)))
  ∧ (∀ p, bodyJson r = some p → objLookup p ("detail".toList) = some Json.null →
       askQuestionStream r = Except.error (Json.str ("Request failed".toList)) ∧
       askQuestion r = Except.error (Json.str ("Request failed".toList))) := by
  refine ⟨?_, ?_, ?_, ?_⟩
  · intro p d hb hd hne
    rw [askQuestionStream_not_ok r hok, askQuestion_not_ok r hok,
      failDetail_of_detail r p d hb hd hne]
    exact ⟨rfl, rfl⟩
  · intro hb
    rw [askQuestionStream_not_ok r hok, askQuestion_not_ok r hok, failDetail_of_no_body r hb]
    exact ⟨rfl, rfl⟩
  · intro p hb hd
    rw [askQuestionStream_not_ok r hok, askQuestion_not_ok r hok,
      failDetail_of_no_detail r p hb hd]
    exact ⟨rfl, rfl⟩
  · intro p hb hd
    rw [askQuestionStream_not_ok r hok, askQuestion_not_ok r hok,
      failDetail_of_null_detail r p hb hd]
    exact ⟨rfl, rfl⟩

/-- C6 witness: a concrete 500 response whose body is
`\x7b"detail":"boom"\x7d` surfaces the error `boom` on both calls. -/
theorem non_ok_response_single_error_witness :
    askQuestionStream ⟨false, some [asciiBytes "\x7b\"detail\":\"boom\"\x7d"]⟩ =
        Except.error (Json.str ("boom".toList))
  ∧ askQuestion ⟨false, some [asciiBytes "\x7b\"detail\":\"boom\"\x7d"]⟩ =
        Except.error (Json.str ("boom".toList)) :=
  (non_ok_response_single_error ⟨false, some [asciiBytes "\x7b\"detail\":\"boom\"\x7d"]⟩
      rfl).1
    (Json.obj [("detail".toList, Json.str ("boom".toList))]) (Json.str ("boom".toList))
    rfl rfl (fun h => Json.noConfusion h)

/-- C9.  An OK response without a readable body makes `askQuestionStream`
throw the error `No response body` before yielding any event. -/
theorem ok_response_without_body (r : HttpResponse) (hok : r.ok = true)
    (hb : r.body = none) :
    askQuestionStream r = Except.error (Json.str ("No response body".toList)) := by
  cases r with
  | mk ok body =>
    cases hok
    cases hb
    rfl

/-- C9 witness. -/
theorem ok_response_without_body_witness :
    askQuestionStream ⟨true, none⟩ = Except.error (Json.str ("No response body".toList)) :=
  ok_response_without_body ⟨true, none⟩ rfl rfl

/-- C8.  `createInitialProgress` maps every one of the fixed named stages to
`pending`, and `AGENT_NAMES` enumerates exactly those five stages. -/
theorem initial_progress_all_pending :
    (∀ a : AgentName, getStage createInitialProgress a = AgentStatus.pending)
  ∧ AGENT_NAMES.length = 5
  ∧ ∀ a : AgentName, a ∈ AGENT_NAMES :=
  ⟨fun a => by cases a <;> rfl, rfl, fun a => by cases a <;> decide⟩

/-- C3.  Modelled from the spec (see `applyEvent`): over any event sequence the
status rank of every stage and of every sub-question never decreases, and
applying `completed` to an already-completed stage or sub-question leaves the
state unchanged — a no-op, never an error or a regression. -/
theorem aggregator_monotonic_idempotent :
    (∀ (s : PipelineState) (evs : List SpecEvent) (stage : AgentName),
       statusRank (getStage s.progress stage) ≤
         statusRank (getStage (evs.foldl applyEvent s).progress stage))
  ∧ (∀ (s : PipelineState) (evs : List SpecEvent) (st : List SubQuestionProgress),
       s.subQuestions = some st →
       ∃ st2, (evs.foldl applyEvent s).subQuestions = some st2 ∧ st2.length = st.length ∧
         ∀ i a, st.get? i = some a →
           ∃ b, st2.get? i = some b ∧ statusRank a.status ≤ statusRank b.status)
  ∧ (∀ (s : PipelineState) (stage : AgentName),
       getStage s.progress stage = AgentStatus.completed →
       applyEvent s (SpecEvent.progress stage AgentStatus.completed) = s)
  ∧ (∀ (s : PipelineState) (i : Nat) (cnt : Option Nat) (st : List SubQuestionProgress)
       (a : SubQuestionProgress), s.subQuestions = some st → st.get? i = some a →
       a.status = AgentStatus.completed →
       applyEvent s (SpecEvent.subtaskProgress i AgentStatus.completed cnt) = s) :=
  ⟨fun s evs stage => foldl_applyEvent_stage_mono evs s stage,
    fun s evs st hs => foldl_applyEvent_subq_mono evs s st hs,
    fun s stage h => applyEvent_completed_stage_noop s stage h,
    fun s i cnt st a hs ha hc => applyEvent_completed_subtask_noop s i cnt st a hs ha hc⟩

/-- C3 witness: on a concrete expanded state with a completed retriever stage
and one completed sub-question, a regressing `running` event does not lower the
rank, and replaying `completed` on the stage and on the sub-question are
no-ops. -/
theorem aggregator_monotonic_idempotent_witness :
    statusRank (getStage samplePipelineState.progress AgentName.retriever) ≤
      statusRank (getStage
        (([SpecEvent.progress AgentName.retriever AgentStatus.running].foldl applyEvent
          samplePipelineState)).progress AgentName.retriever)
  ∧ (∃ st2, (([SpecEvent.progress AgentName.retriever AgentStatus.running].foldl applyEvent
        samplePipelineState)).subQuestions = some st2 ∧
      st2.length = [(⟨"q1", AgentStatus.completed, some 2⟩ : SubQuestionProgress)].length ∧
      ∀ i a, [(⟨"q1", AgentStatus.completed, some 2⟩ : SubQuestionProgress)].get? i = some a →
        ∃ b, st2.get? i = some b ∧ statusRank a.status ≤ statusRank b.status)
  ∧ applyEvent samplePipelineState
      (SpecEvent.progress AgentName.retriever AgentStatus.completed) = samplePipelineState
  ∧ applyEvent samplePipelineState
      (SpecEvent.subtaskProgress 0 AgentStatus.completed none) = samplePipelineState :=
  ⟨aggregator_monotonic_idempotent.1 samplePipelineState _ AgentName.retriever,
    aggregator_monotonic_idempotent.2.1 samplePipelineState _ _ rfl,
    aggregator_monotonic_idempotent.2.2.1 samplePipelineState AgentName.retriever rfl,
    aggregator_monotonic_idempotent.2.2.2 samplePipelineState 0 none
      [⟨"q1", AgentStatus.completed, some 2⟩] ⟨"q1", AgentStatus.completed, some 2⟩
      rfl rfl rfl⟩

/-- C10.  `allSubQuestionsCompleted` is false when the sub-question list is
absent or empty, and on a non-empty list it is true exactly when every
sub-question has status `completed`: an expanded pipeline with zero sub-tasks
is never reported as all-completed. -/
theorem all_sub_questions_completed_spec :
    allSubQuestionsCompleted none = false
  ∧ allSubQuestionsCompleted (some []) = false
  ∧ ∀ l : List SubQuestionProgress, l ≠ [] →
      (allSubQuestionsCompleted (some l) = true ↔
        ∀ sq ∈ l, sq.status = AgentStatus.completed) := by
  refine ⟨rfl, rfl, ?_⟩
  intro l hl
  have hlen : ¬ l.length = 0 := by simpa [List.length_eq_zero] using hl
  simp [allSubQuestionsCompleted, hlen, List.all_eq_true]

/-- C10 witness: a singleton completed list is reported as all-completed. -/
theorem all_sub_questions_completed_spec_witness :
    allSubQuestionsCompleted
      (some [(⟨"q1", AgentStatus.completed, some 2⟩ : SubQuestionProgress)]) = true :=
  (all_sub_questions_completed_spec.2.2 [⟨"q1", AgentStatus.completed, some 2⟩]
      (by simp)).2
    (fun sq hm => by rw [List.mem_singleton.mp hm])

end MAR
